import Mathlib

/-!
# oeedger8r `utils.h`: declaration rendering, size expressions, deep-copy detection

A shallow embedding of the string builders of `src/utils.h`.

* C++ `std::string` is Lean `String`; `+` on strings is `++` (both associate
  to the left, and the definitions keep the source's bracketing).
* A C++ pointer that may be null (`Dims*`, `Attrs*`, the result of
  `get_user_type`) is an `Option`.  Dereferencing a null pointer is modelled
  as the result `none` of the enclosing function.
* The data model (`Type`, `Token`, `Attrs`, `Decl`, `UserType`, `Edl`,
  `Function`) is declared in `ast.h`, which `utils.h` only includes; it is
  reconstructed here from the specification and from the fields that
  `utils.h` reads.
-/

namespace Oeedger8r

/-! ## Data model -/

/-- Modelled from the spec: the tag enumeration of `ast.h` (missing from the
sources), with one constructor per tag that `utils.h` compares against and
`Other n` for any tag value that its dispatch chains do not list. -/
inductive AType where
  | Bool | Char | Short | Int | Long | LLong | Float | Double | LDouble
  | Int8 | Int16 | Int32 | Int64 | UInt8 | UInt16 | UInt32 | UInt64
  | WChar | Void | SizeT
  | Struct | Enum | Union | Ptr | Const | Foreign | Unsigned
  | Other (n : Nat)
  deriving DecidableEq, Repr

/-- Modelled from the spec: the type tree `Type` of `ast.h` (missing from the
sources).  Primitive kinds carry nothing, `Enum`/`Struct`/`Union`/`Foreign`
carry their `name_`, and `Const`/`Ptr`/`Unsigned` own their inner type `t_`.
`Other n` is a node whose tag has no entry in the renderer's dispatch. -/
inductive Ty where
  | Bool | Char | Short | Int | Long | LLong | Float | Double | LDouble
  | Int8 | Int16 | Int32 | Int64 | UInt8 | UInt16 | UInt32 | UInt64
  | WChar | Void | SizeT
  | Struct (name_ : String)
  | Enum (name_ : String)
  | Union (name_ : String)
  | Ptr (t_ : Ty)
  | Const (t_ : Ty)
  | Foreign (name_ : String)
  | Unsigned (t_ : Ty)
  | Other (n : Nat)
  deriving DecidableEq, Repr

/-- The field `tag_` of a type node. -/
def Ty.tag_ : Ty → AType
  | .Bool => .Bool | .Char => .Char | .Short => .Short | .Int => .Int
  | .Long => .Long | .LLong => .LLong | .Float => .Float | .Double => .Double
  | .LDouble => .LDouble | .Int8 => .Int8 | .Int16 => .Int16 | .Int32 => .Int32
  | .Int64 => .Int64 | .UInt8 => .UInt8 | .UInt16 => .UInt16
  | .UInt32 => .UInt32 | .UInt64 => .UInt64 | .WChar => .WChar
  | .Void => .Void | .SizeT => .SizeT
  | .Struct _ => .Struct | .Enum _ => .Enum | .Union _ => .Union
  | .Ptr _ => .Ptr | .Const _ => .Const | .Foreign _ => .Foreign
  | .Unsigned _ => .Unsigned | .Other n => .Other n

/-- The field `name_` of a type node (empty on nodes that carry no name). -/
def Ty.name_ : Ty → String
  | .Struct n => n | .Enum n => n | .Union n => n | .Foreign n => n
  | _ => ""

/-- Modelled from the spec: `Token` (declared outside `utils.h`): absent
(`is_empty`), a name reference (`is_name`), or a literal value. -/
inductive Token where
  | empty
  | name (text : String)
  | literal (text : String)
  deriving DecidableEq, Repr

/-- `Token::is_empty`. -/
def Token.is_empty : Token → Bool
  | .empty => true
  | _ => false

/-- `Token::is_name`. -/
def Token.is_name : Token → Bool
  | .name _ => true
  | _ => false

/-- `Token::operator std::string`: the token's text. -/
def Token.str : Token → String
  | .empty => ""
  | .name s => s
  | .literal s => s

/-- `Dims` is `std::vector<std::string>`. -/
abbrev Dims := List String

/-- Modelled from the spec: the attribute record `Attrs` of `ast.h`, with the
fields that `utils.h` reads. -/
structure Attrs where
  isary_ : Bool
  isptr_ : Bool
  string_ : Bool
  wstring_ : Bool
  size_ : Token
  count_ : Token
  deriving DecidableEq, Repr

/-- Modelled from the spec: `Decl` of `ast.h`: a name bound to a type, with
nullable `dims_` and `attrs_`. -/
structure Decl where
  name_ : String
  type_ : Ty
  dims_ : Option Dims
  attrs_ : Option Attrs
  deriving DecidableEq, Repr

/-- Modelled from the spec: `UserType` of `ast.h`: a named aggregate with its
tag and its ordered member declarations. -/
structure UserType where
  name_ : String
  tag_ : AType
  fields_ : List Decl
  deriving DecidableEq, Repr

/-- Modelled from the spec: `Edl` of `ast.h`, reduced to the registry
`types_` that `utils.h` reads. -/
structure Edl where
  types_ : List UserType
  deriving DecidableEq, Repr

/-- Modelled from the spec: `Function` of `ast.h`: a name, a return type and
the ordered parameters. -/
structure Function where
  name_ : String
  rtype_ : Ty
  params_ : List Decl
  deriving DecidableEq, Repr

/-! ## Declaration renderer -/

/-- `atype_str`: the dispatch chain of the source, in the source's order. -/
def atype_str : Ty → String
  | .Enum n => "enum " ++ n
  | .Struct n => "struct " ++ n
  | .Union n => "union " ++ n
  | .Const t => "const " ++ atype_str t
  | .Short => "short int"
  | .Long => "long int"
  | .Unsigned t => "unsigned " ++ atype_str t
  | .Ptr t => atype_str t ++ "*"
  | .Foreign n => n
  | .Bool => "bool"
  | .Char => "char"
  | .Int => "int"
  | .LLong => "long long"
  | .Float => "float"
  | .Double => "double"
  | .LDouble => "long double"
  | .Int8 => "int8_t"
  | .Int16 => "int16_t"
  | .Int32 => "int32_t"
  | .Int64 => "int64_t"
  | .UInt8 => "uint8_t"
  | .UInt16 => "uint16_t"
  | .UInt32 => "uint32_t"
  | .UInt64 => "uint64_t"
  | .WChar => "wchar_t"
  | .Void => "void"
  | .SizeT => "size_t"
  | .Other _ => ""

/-- The loop of `dims_str` over the entries from the current index on. -/
def dims_list : List String → String
  | [] => ""
  | d :: ds => "[" ++ d ++ "]" ++ dims_list ds

/-- `dims_str(dims)` with `idx = 0`: a null `dims` renders as nothing. -/
def dims_str : Option Dims → String
  | none => ""
  | some ds => dims_list ds

/-- `name[0]`: the first character, and the terminating `'\0'` of an empty
`std::string`. -/
def front (s : String) : Char :=
  s.data.headD (Char.ofNat 0)

/-- `decl_str`. -/
def decl_str (name : String) (t : Ty) (dims : Option Dims) : String :=
  if (front name).isAlpha || front name == '_' then
    atype_str t ++ " " ++ name ++ dims_str dims
  else
    atype_str t ++ name ++ dims_str dims

/-- `std::string::find(p)` on character lists: the first position at which
`p` occurs, `none` for `npos`. -/
def findL (p : List Char) : List Char → Option Nat
  | [] => if p = [] then some 0 else none
  | c :: s =>
    if p.isPrefixOf (c :: s) then some 0
    else (findL p s).map (· + 1)

/-- The body of `replace` on character lists: `s.substr(0, start_pos) + q +
s.substr(start_pos + p.length())`, or `s` itself when `find` gives `npos`. -/
def replaceL (s p q : List Char) : List Char :=
  match findL p s with
  | none => s
  | some start_pos => s.take start_pos ++ q ++ s.drop (start_pos + p.length)

/-- `replace(s, p, q)`: the first occurrence of `p` in `s` is replaced by `q`;
`s` is returned unchanged when `p` does not occur. -/
def replace (s p q : String) : String :=
  String.mk (replaceL s.data p.data q.data)

/-- The test `attrs && attrs->isary_`. -/
def attrs_isary (attrs : Option Attrs) : Bool :=
  match attrs with
  | some a => a.isary_
  | none => false

/-- The test `attrs && attrs->isptr_`. -/
def attrs_isptr (attrs : Option Attrs) : Bool :=
  match attrs with
  | some a => a.isptr_
  | none => false

/-- `mtype_str`. -/
def mtype_str (p : Decl) : String :=
  if p.type_.tag_ = AType.Foreign && attrs_isary p.attrs_ then
    "/* foreign array of type " ++ p.type_.name_ ++ " */ void*"
  else
    let s := atype_str p.type_ ++ (if p.dims_.isSome then "*" else "")
    replace s "const " ""

/-- `mdecl_str`. -/
def mdecl_str (name : String) (t : Ty) (dims : Option Dims)
    (attrs : Option Attrs) : String :=
  if t.tag_ = AType.Foreign && attrs_isary attrs then
    "/* foreign array of type " ++ t.name_ ++ " */ void* " ++ name
  else
    let decl := atype_str t ++ (if dims.isSome then "* " else " ") ++ name
    replace decl "const " ""

/-! ## Size-expression builder -/

/-- `btype`. -/
def btype : Ty → String
  | .Const t => btype t
  | .Ptr t => btype t
  | .Foreign n => n
  | .Enum n => "enum " ++ n
  | .Struct n => "struct " ++ n
  | .Union n => "union " ++ n
  | t => atype_str t

/-- `count_attr_str`. -/
def count_attr_str (t : Token) (pre : String) : String :=
  if t.is_name then pre ++ t.str else t.str

/-- `size_attr_str`. -/
def size_attr_str (t : Token) (pre : String) : String :=
  count_attr_str t pre

/-- The test `p->attrs_ && (p->attrs_->string_ || p->attrs_->wstring_)`. -/
def attrs_string (attrs : Option Attrs) : Bool :=
  match attrs with
  | some a => a.string_ || a.wstring_
  | none => false

/-- The test `p->dims_ && !p->dims_->empty()`. -/
def has_dims (dims : Option Dims) : Bool :=
  match dims with
  | some ds => !ds.isEmpty
  | none => false

/-- The element-size term `s` that `psize` computes before it looks at the
`size_`/`count_` tokens. -/
def psize_elem (p : Decl) : String :=
  match p.type_ with
  | .Ptr t => "sizeof(" ++ replace (atype_str t) "const " "" ++ ")"
  | .Foreign n => if attrs_isptr p.attrs_ then "sizeof(*(" ++ n ++ ")0)" else ""
  | _ => ""

/-- `psize`.  The result is `none` where the source dereferences a null
`attrs_` (the test on `size_` and `count_` is not guarded by `p->attrs_`). -/
def psize (p : Decl) (pre : String) : Option String :=
  if attrs_string p.attrs_ then
    some (pre ++ p.name_ ++ "_len * sizeof(" ++ btype p.type_ ++ ")")
  else if has_dims p.dims_ then
    some ("sizeof(" ++ decl_str "" p.type_ p.dims_ ++ ")")
  else if p.type_.tag_ = AType.Foreign && attrs_isary p.attrs_ then
    some ("sizeof(" ++ p.type_.name_ ++ ")")
  else
    let s := psize_elem p
    match p.attrs_ with
    | none => none
    | some a =>
      if !a.size_.is_empty && !a.count_.is_empty then
        some ("(" ++ size_attr_str a.size_ pre ++ " * " ++
          count_attr_str a.count_ pre ++ ")")
      else if !a.count_.is_empty then
        some ("((size_t)" ++ count_attr_str a.count_ pre ++ " * " ++ s ++ ")")
      else if !a.size_.is_empty then
        some (size_attr_str a.size_ pre)
      else
        some s

/-! ## Deep-copy eligibility detector -/

/-- `get_user_type(types, name)`: the first entry with that name. -/
def get_user_type_in : List UserType → String → Option UserType
  | [], _ => none
  | t :: ts, name => if t.name_ = name then some t else get_user_type_in ts name

/-- `get_user_type(edl, name)`. -/
def get_user_type (edl : Edl) (name : String) : Option UserType :=
  get_user_type_in edl.types_ name

/-- The loop of `iterate_deep_copyable_fields`, threading the state that the
action updates. -/
def iterate_fields {σ : Type} (action : σ → Decl → σ) : List Decl → σ → σ
  | [], st => st
  | prop :: rest, st =>
    if prop.attrs_.isSome then iterate_fields action rest (action st prop)
    else iterate_fields action rest st

/-- `iterate_deep_copyable_fields`: nothing happens unless the user type is a
`Struct`; then the action runs on every field that carries attributes. -/
def iterate_deep_copyable_fields {σ : Type} (user_type : UserType)
    (action : σ → Decl → σ) (st : σ) : σ :=
  if user_type.tag_ ≠ AType.Struct then st
  else iterate_fields action user_type.fields_ st

/-- `get_user_type_for_deep_copy`. -/
def get_user_type_for_deep_copy (edl : Edl) (d : Decl) : Option UserType :=
  match d.type_ with
  | .Ptr u =>
    if d.attrs_.isNone then none
    else
      let t := match u with
        | .Const v => v
        | _ => u
      let ut := match t with
        | .Foreign n => get_user_type edl n
        | .Struct n => get_user_type edl n
        | _ => none
      match ut with
      | none => none
      | some ut =>
        let deep_copyable :=
          iterate_deep_copyable_fields ut (fun _ _ => true) false
        if deep_copyable then some ut else none
  | _ => none

/-! ## Signature builder -/

/-- The loop `argsstr += ",\n    " + args[i]` over the remaining arguments. -/
def args_tail (acc : String) : List String → String
  | [] => acc
  | a :: as => args_tail (acc ++ (",\n    " ++ a)) as

/-- `prototype`. -/
def prototype (f : Function) (ecall : Bool) (gen_t : Bool) : String :=
  let retstr := if ecall != gen_t then "oe_result_t" else atype_str f.rtype_
  let args0 : List String :=
    if ecall && !gen_t then ["oe_enclave_t* enclave"] else []
  let args1 : List String :=
    if ecall != gen_t && f.rtype_.tag_ ≠ AType.Void then
      args0 ++ [atype_str f.rtype_ ++ "* _retval"]
    else args0
  let args : List String :=
    args1 ++ f.params_.map (fun p => decl_str p.name_ p.type_ p.dims_)
  let argsstr :=
    match args with
    | [] => if gen_t && !ecall then "(\n    )" else "(void)"
    | [a0] => "(" ++ a0 ++ ")"
    | a0 :: rest => args_tail ("(\n    " ++ a0) rest ++ ")"
  retstr ++ " " ++ f.name_ ++ argsstr

/-- The value `retstr` of `prototype`. -/
def prototype_retstr (f : Function) (ecall : Bool) (gen_t : Bool) : String :=
  if ecall != gen_t then "oe_result_t" else atype_str f.rtype_

/-- The vector `args` that `prototype` collects: the enclave handle, the
`_retval` out-parameter, then the parameters. -/
def prototype_args (f : Function) (ecall : Bool) (gen_t : Bool) : List String :=
  let args0 : List String :=
    if ecall && !gen_t then ["oe_enclave_t* enclave"] else []
  let args1 : List String :=
    if ecall != gen_t && f.rtype_.tag_ ≠ AType.Void then
      args0 ++ [atype_str f.rtype_ ++ "* _retval"]
    else args0
  args1 ++ f.params_.map (fun p => decl_str p.name_ p.type_ p.dims_)

/-- The text `argsstr` that `prototype` builds from the collected `args`. -/
def prototype_argsstr (ecall : Bool) (gen_t : Bool) (args : List String) : String :=
  match args with
  | [] => if gen_t && !ecall then "(\n    )" else "(void)"
  | [a0] => "(" ++ a0 ++ ")"
  | a0 :: rest => args_tail ("(\n    " ++ a0) rest ++ ")"

/-! ## Spec-side vocabulary -/

/-- The twenty primitive kinds: the type nodes that carry neither a name nor an
inner type and that the renderer's table lists. -/
def is_primitive : Ty → Bool
  | .Bool | .Char | .Short | .Int | .Long | .LLong | .Float | .Double
  | .LDouble | .Int8 | .Int16 | .Int32 | .Int64 | .UInt8 | .UInt16 | .UInt32
  | .UInt64 | .WChar | .Void | .SizeT => true
  | _ => false

/-- A type wrapped in `k` layers of `Ptr`. -/
def ptr_layers : Nat → Ty → Ty
  | 0, t => t
  | k + 1, t => .Ptr (ptr_layers k t)

/-- The bracket sequence `[d0][d1]...` of a dimension list, written as the
concatenation of the bracketed entries. -/
def bracketed (ds : List String) : String :=
  String.join (ds.map (fun d => "[" ++ d ++ "]"))

/-- A token as the spec renders it: a name reference gets the prefix, a
literal is its own text. -/
def rendered (t : Token) (pre : String) : String :=
  match t with
  | .name s => pre ++ s
  | .literal s => s
  | .empty => ""

/-- The text contains the substring `const`. -/
def contains_const (s : String) : Prop :=
  "const".data <:+: s.data

instance contains_const_decidable (s : String) : Decidable (contains_const s) := by
  unfold contains_const; infer_instance

/-- The number of `Const` nodes in a type's chain. -/
def const_count : Ty → Nat
  | .Const t => const_count t + 1
  | .Ptr t => const_count t
  | .Unsigned t => const_count t
  | _ => 0

/-- The name carried by the base type at the end of a type's chain. -/
def base_name : Ty → String
  | .Const t => base_name t
  | .Ptr t => base_name t
  | .Unsigned t => base_name t
  | t => t.name_

/-- The pointee after the detector unwrapped one `Const`. -/
def unconst : Ty → Ty
  | .Const v => v
  | u => u

/-- The characters that may follow a type text in a member declaration: the
tail is empty, or starts with a character that is not in `const` and goes on
without `const`. -/
def sep_tail (z : List Char) : Prop :=
  z = [] ∨ ∃ c z1, z = c :: z1 ∧ c ∉ "const".data ∧ ¬ "const".data <:+: z1

/-- The name begins with a letter or an underscore. -/
def ident_leading (name : String) : Bool :=
  match name.data with
  | [] => false
  | c :: _ => c.isAlpha || c == '_'

/-- The text of `k` pointer markers. -/
def stars (k : Nat) : String :=
  String.mk (List.replicate k '*')

/-- The base type under the outer `Const`/`Ptr` layers of a type. -/
def chain_base : Ty → Ty
  | .Const t => chain_base t
  | .Ptr t => chain_base t
  | t => t

/-- The text contains the substring `sizeof`. -/
def contains_sizeof (s : String) : Prop :=
  "sizeof".data <:+: s.data

instance contains_sizeof_decidable (s : String) : Decidable (contains_sizeof s) := by
  unfold contains_sizeof; infer_instance

/-- The argument list as the spec formats it: nothing for no argument, one
line for one argument, one argument per line for two or more. -/
def formatted_args (ecall : Bool) (gen_t : Bool) (args : List String) : String :=
  match args with
  | [] => if gen_t = true ∧ ecall = false then "(\n    )" else "(void)"
  | [a0] => "(" ++ a0 ++ ")"
  | a0 :: rest =>
    "(" ++ "\n    " ++ a0 ++ String.join (rest.map (fun a => "," ++ "\n    " ++ a)) ++ ")"

/-- The parameters' declaration texts in declared order. -/
def param_texts (f : Function) : List String :=
  f.params_.map (fun p => decl_str p.name_ p.type_ p.dims_)

/-- The out-parameter that carries the real return value: present unless the
return type is `Void`. -/
def retval_arg (f : Function) : List String :=
  if f.rtype_.tag_ = AType.Void then [] else [atype_str f.rtype_ ++ "* _retval"]

/-- The type without its `Const` nodes. -/
def drop_const : Ty → Ty
  | .Const t => drop_const t
  | .Ptr t => .Ptr (drop_const t)
  | .Unsigned t => .Unsigned (drop_const t)
  | t => t

/-- The text contains `const` followed by a blank. -/
def contains_const_blank (s : String) : Prop :=
  "const ".data <:+: s.data

instance contains_const_blank_decidable (s : String) :
    Decidable (contains_const_blank s) := by
  unfold contains_const_blank; infer_instance

/-! ## Helper lemmas -/

theorem ptr_layers_tag_ne_foreign (k : Nat) (t : Ty) (h : is_primitive t = true) :
    (ptr_layers k t).tag_ ≠ AType.Foreign := by
  cases k with
  | zero => cases t <;> simp_all [ptr_layers, Ty.tag_, is_primitive]
  | succ k => simp [ptr_layers, Ty.tag_]

theorem join_foldl (l : List String) (acc : String) :
    l.foldl (fun r s => r ++ s) acc = acc ++ l.foldl (fun r s => r ++ s) "" := by
  induction l generalizing acc with
  | nil => apply String.ext; simp
  | cons a l ih =>
    simp only [List.foldl_cons]
    rw [ih (acc ++ a), ih ("" ++ a)]
    apply String.ext; simp

theorem join_cons (a : String) (l : List String) :
    String.join (a :: l) = a ++ String.join l := by
  unfold String.join
  simp only [List.foldl_cons]
  rw [join_foldl]
  apply String.ext; simp

theorem dims_list_eq_bracketed (ds : List String) : dims_list ds = bracketed ds := by
  induction ds with
  | nil => rfl
  | cons d ds ih =>
    simp only [dims_list, bracketed, List.map_cons, join_cons]
    rw [ih]; rfl

theorem count_attr_str_eq_rendered (t : Token) (pre : String) :
    count_attr_str t pre = rendered t pre := by
  cases t <;> rfl

/-! ## Size-expression builder: theorems -/

/-- The count-only rule on a pointer type, with the element text written as
the source computes it, by `replace` on the pointee's text. -/
theorem psize_count_only (name pre : String) (T : Ty) (dims : Option Dims)
    (a : Attrs) (hs : a.string_ = false) (hw : a.wstring_ = false)
    (hd : dims = none ∨ dims = some [])
    (hcount : a.count_.is_empty = false) (hsize : a.size_.is_empty = true) :
    psize ⟨name, .Ptr T, dims, some a⟩ pre =
      some ("((size_t)" ++ count_attr_str a.count_ pre ++ " * sizeof(" ++
        replace (atype_str T) "const " "" ++ "))") := by
  have hdims : has_dims dims = false := by
    rcases hd with h | h <;> simp [h, has_dims]
  simp only [psize, attrs_string, hs, hw, hdims, Ty.tag_, psize_elem, hcount, hsize]
  simp only [Bool.or_self, Bool.false_eq_true, if_false, Bool.not_true, Bool.not_false,
    Bool.and_true, Bool.false_and, reduceCtorEq, decide_False, ↓reduceIte, Option.some.injEq]
  apply String.ext
  simp [String.data_append]

/-- C2 (as stated, refuted): with size token `sz` and count token `cnt` on a
pointer to `int`, `psize` is not the bare product text `sz * cnt`. -/
theorem psize_size_count_bare_fails :
    psize ⟨"p", .Ptr .Int, none, some ⟨false, false, false, false, .name "sz", .name "cnt"⟩⟩ ""
      ≠ some (size_attr_str (.name "sz") "" ++ " * " ++ count_attr_str (.name "cnt") "") := by
  decide

/-- C2 (amended): for a declaration that is not string-flagged, has no
dimensions, has both tokens set, and whose type is a primitive under any
number of `Ptr` layers, `psize` with the empty prefix is the parenthesised
product `(S * C)` of the rendered size and count tokens. -/
theorem psize_size_count (name : String) (k : Nat) (T : Ty) (dims : Option Dims)
    (a : Attrs) (hT : is_primitive T = true)
    (hs : a.string_ = false) (hw : a.wstring_ = false)
    (hd : dims = none ∨ dims = some [])
    (hsize : a.size_.is_empty = false) (hcount : a.count_.is_empty = false) :
    psize ⟨name, ptr_layers k T, dims, some a⟩ "" =
      some ("(" ++ size_attr_str a.size_ "" ++ " * " ++ count_attr_str a.count_ "" ++ ")") := by
  have hdims : has_dims dims = false := by
    rcases hd with h | h <;> simp [h, has_dims]
  have htag := ptr_layers_tag_ne_foreign k T hT
  simp [psize, attrs_string, hs, hw, hdims, htag, hsize, hcount]

/-- C2 witness: a pointer to pointer to `int` with tokens `sz` and `cnt`. -/
theorem psize_size_count_witness :
    psize ⟨"p", .Ptr (.Ptr .Int), none,
        some ⟨false, false, false, false, .name "sz", .literal "4"⟩⟩ "" = some "(sz * 4)" :=
  psize_size_count "p" 2 .Int none ⟨false, false, false, false, .name "sz", .literal "4"⟩
    rfl rfl rfl (Or.inl rfl) rfl rfl

/-- C3: the string rule wins over every other rule: when `string_` or
`wstring_` is set, `psize` is `<prefix><name>_len * sizeof(<btype>)` whatever
the dimensions, tokens and array/pointer flags are. -/
theorem psize_string (name pre : String) (ty : Ty) (dims : Option Dims) (a : Attrs)
    (h : a.string_ = true ∨ a.wstring_ = true) :
    psize ⟨name, ty, dims, some a⟩ pre =
      some (pre ++ name ++ "_len * sizeof(" ++ btype ty ++ ")") := by
  have hstr : attrs_string (some a) = true := by
    rcases h with h | h <;> simp [attrs_string, h]
  simp [psize, hstr]

/-- C3 witness: `msg`, pointer to `char`, `string_` set, empty prefix; the
dimensions, tokens and flags are all set to show that they do not matter. -/
theorem psize_string_witness :
    psize ⟨"msg", .Ptr .Char, some ["8"],
        some ⟨true, true, true, false, .name "n", .literal "3"⟩⟩ ""
      = some "msg_len * sizeof(char)" :=
  psize_string "msg" "" (.Ptr .Char) (some ["8"])
    ⟨true, true, true, false, .name "n", .literal "3"⟩ (Or.inl rfl)

/-- C4: for a declaration with a non-empty dimension list that is not
string-flagged (its attributes may be absent), `psize` is `sizeof(` followed
by the type text, the bracketed dimensions in declared order, and `)`, with
no space before the first bracket, whatever the tokens are. -/
theorem psize_dims (name pre : String) (ty : Ty) (d : String) (ds : List String)
    (attrs : Option Attrs)
    (h : ∀ a, attrs = some a → a.string_ = false ∧ a.wstring_ = false) :
    psize ⟨name, ty, some (d :: ds), attrs⟩ pre =
      some ("sizeof(" ++ atype_str ty ++ bracketed (d :: ds) ++ ")") := by
  have hstr : attrs_string attrs = false := by
    cases attrs with
    | none => rfl
    | some a => simp [attrs_string, (h a rfl).1, (h a rfl).2]
  have hfront : ((front "").isAlpha || front "" == '_') = false := by decide
  simp only [psize, hstr, has_dims, decl_str, hfront, dims_str, dims_list_eq_bracketed]
  simp only [Bool.false_eq_true, if_false, List.isEmpty_cons, Bool.not_false, if_true,
    Option.some.injEq]
  apply String.ext
  simp [String.data_append]

/-- C4 witness: `int` with dimension list `["2"]` and no attributes. -/
theorem psize_dims_witness :
    psize ⟨"a", .Int, some ["2"], none⟩ "" = some "sizeof(int[2])" :=
  psize_dims "a" "" .Int "2" [] none (fun _ h => by cases h)

/-- C5: for a declaration that is not string-flagged, has no dimensions, is
not a `Foreign` type flagged `isary_`, and has a size token but no count
token, `psize` is the size token rendered alone, whatever the type is. -/
theorem psize_size_only (name pre : String) (ty : Ty) (dims : Option Dims) (a : Attrs)
    (hs : a.string_ = false) (hw : a.wstring_ = false)
    (hd : dims = none ∨ dims = some [])
    (hary : ¬ (ty.tag_ = AType.Foreign ∧ a.isary_ = true))
    (hsize : a.size_.is_empty = false) (hcount : a.count_.is_empty = true) :
    psize ⟨name, ty, dims, some a⟩ pre = some (rendered a.size_ pre) := by
  have hdims : has_dims dims = false := by
    rcases hd with h | h <;> simp [h, has_dims]
  have hary2 : (decide (ty.tag_ = AType.Foreign) && attrs_isary (some a)) = false := by
    simp only [attrs_isary]
    by_cases h1 : ty.tag_ = AType.Foreign
    · have : a.isary_ = false := by
        cases h2 : a.isary_
        · rfl
        · exact absurd ⟨h1, h2⟩ hary
      simp [this]
    · simp [h1]
  simp only [psize, attrs_string, hs, hw, hdims, hary2, hsize, hcount, size_attr_str,
    count_attr_str_eq_rendered]
  simp

/-- C5 witness: a `Foreign` type that is not array-flagged, size token `n`,
prefix `args->`. -/
theorem psize_size_only_witness :
    psize ⟨"x", .Foreign "my_t", some [],
        some ⟨false, true, false, false, .name "n", .empty⟩⟩ "args->" = some "args->n" :=
  psize_size_only "x" "args->" (.Foreign "my_t") (some [])
    ⟨false, true, false, false, .name "n", .empty⟩ rfl rfl (Or.inr rfl)
    (by decide) rfl rfl

/-- C6: on a declaration without attributes and without dimensions `psize`
does not return the element-size term: for every name, type and prefix it
reaches the unguarded read of `attrs_->size_` and dereferences the null
`attrs_`, with `dims_` null as well as with an empty `dims_`. -/
theorem psize_no_attrs_null_deref (name pre : String) (ty : Ty) :
    psize ⟨name, ty, none, none⟩ pre = none ∧
    psize ⟨name, ty, some [], none⟩ pre = none := by
  constructor <;> simp [psize, attrs_string, has_dims, attrs_isary]

/-! ## Declaration renderer: theorems -/

/-- C9 (as stated, refuted): at `T = int` the renderings of `Const(Ptr(T))`
and `Ptr(Const(T))` are not different. -/
theorem atype_str_const_ptr_same_at_int :
    ¬ (atype_str (.Const (.Ptr .Int)) ≠ atype_str (.Ptr (.Const .Int))) := by
  decide

/-- C9 (amended): the rendered text does not record the order of `Ptr` and
`Const`: for every type `T`, `Const(Ptr(T))` and `Ptr(Const(T))` both render
as `const ` followed by the text of `T` and a star. -/
theorem atype_str_const_ptr (T : Ty) :
    atype_str (.Const (.Ptr T)) = "const " ++ atype_str T ++ "*" ∧
    atype_str (.Ptr (.Const T)) = "const " ++ atype_str T ++ "*" := by
  constructor
  · simp only [atype_str]
    apply String.ext
    simp [String.data_append]
  · simp only [atype_str]

/-- C10: every primitive tag renders as its reference spelling; a tag without
a table entry renders as the empty string, and no primitive tag does. -/
theorem atype_str_primitive_table :
    (atype_str .Bool = "bool" ∧ atype_str .Char = "char" ∧
     atype_str .Short = "short int" ∧ atype_str .Int = "int" ∧
     atype_str .Long = "long int" ∧ atype_str .LLong = "long long" ∧
     atype_str .Float = "float" ∧ atype_str .Double = "double" ∧
     atype_str .LDouble = "long double" ∧ atype_str .Int8 = "int8_t" ∧
     atype_str .Int16 = "int16_t" ∧ atype_str .Int32 = "int32_t" ∧
     atype_str .Int64 = "int64_t" ∧ atype_str .UInt8 = "uint8_t" ∧
     atype_str .UInt16 = "uint16_t" ∧ atype_str .UInt32 = "uint32_t" ∧
     atype_str .UInt64 = "uint64_t" ∧ atype_str .WChar = "wchar_t" ∧
     atype_str .Void = "void" ∧ atype_str .SizeT = "size_t") ∧
    (∀ n, atype_str (.Other n) = "") ∧
    (∀ t : Ty, is_primitive t = true ∨ (∃ n, t = .Other n) →
      (atype_str t = "" ↔ ∃ n, t = .Other n)) := by
  refine ⟨by simp [atype_str], fun _ => rfl, ?_⟩
  intro t ht
  rcases ht with h | ⟨n, rfl⟩
  · cases t <;> simp_all [is_primitive, atype_str]
  · simp [atype_str]

/-! ## Deep-copy eligibility detector: theorems -/

theorem get_user_type_in_eq_find (types : List UserType) (n : String) :
    get_user_type_in types n = types.find? (fun u => u.name_ == n) := by
  induction types with
  | nil => rfl
  | cons t ts ih =>
    by_cases h : t.name_ = n
    · simp [get_user_type_in, h]
    · simp [get_user_type_in, h, ih]

theorem iterate_fields_flag (fields : List Decl) (st : Bool) :
    iterate_fields (fun _ _ => true) fields st =
      (st || fields.any (fun f => f.attrs_.isSome)) := by
  induction fields generalizing st with
  | nil => simp [iterate_fields]
  | cons f fs ih =>
    cases h : f.attrs_.isSome <;> simp [iterate_fields, h, ih]

theorem deep_copyable_iff (ut : UserType) :
    iterate_deep_copyable_fields ut (fun _ _ => true) false = true ↔
      ut.tag_ = AType.Struct ∧ ∃ f ∈ ut.fields_, f.attrs_.isSome = true := by
  unfold iterate_deep_copyable_fields
  by_cases h : ut.tag_ = AType.Struct
  · simp [h, iterate_fields_flag]
  · simp [h]

theorem deep_copy_resolved (ut : UserType) (o : Option UserType) :
    (match o with
      | none => none
      | some u =>
        if iterate_deep_copyable_fields u (fun _ _ => true) false = true then some u
        else none) = some ut ↔
      o = some ut ∧ ut.tag_ = AType.Struct ∧ ∃ f ∈ ut.fields_, f.attrs_.isSome = true := by
  cases o with
  | none => simp
  | some u =>
    by_cases hd : iterate_deep_copyable_fields u (fun _ _ => true) false = true
    · simp only [hd, if_true, Option.some.injEq]
      constructor
      · intro h; subst h; exact ⟨rfl, (deep_copyable_iff u).1 hd⟩
      · intro h; exact h.1
    · simp only [hd, if_false, Option.some.injEq]
      constructor
      · intro h; cases h
      · intro h
        have := h.1; subst this
        exact absurd ((deep_copyable_iff u).2 h.2) hd

/-- The registry lookup that the detector performs on the unwrapped pointee. -/
theorem deep_copy_lookup (edl : Edl) (t : Ty) (ut : UserType) :
    (match t with
      | .Foreign n => get_user_type edl n
      | .Struct n => get_user_type edl n
      | _ => none) = some ut ↔
      (t.tag_ = AType.Foreign ∨ t.tag_ = AType.Struct) ∧
        edl.types_.find? (fun u => u.name_ == t.name_) = some ut := by
  cases t <;> simp [Ty.tag_, Ty.name_, get_user_type, get_user_type_in_eq_find]

/-- C7: the detector returns the user type `ut` exactly when the declaration
carries attributes, its type is `Ptr(U)`, the pointee `U` with one `Const`
unwrapped is tagged `Foreign` or `Struct`, `ut` is the first registry entry
with the pointee's name, `ut` is tagged `Struct`, and one of its fields
carries attributes.  Hence a pointer without attributes, a pointer to a
primitive type and a pointer to a pointer are never eligible. -/
theorem get_user_type_for_deep_copy_iff :
    (∀ (edl : Edl) (d : Decl) (ut : UserType),
      get_user_type_for_deep_copy edl d = some ut ↔
        d.attrs_.isSome = true ∧ ∃ U, d.type_ = .Ptr U ∧
          ((unconst U).tag_ = AType.Foreign ∨ (unconst U).tag_ = AType.Struct) ∧
          edl.types_.find? (fun u => u.name_ == (unconst U).name_) = some ut ∧
          ut.tag_ = AType.Struct ∧ ∃ f ∈ ut.fields_, f.attrs_.isSome = true) ∧
    (∀ (edl : Edl) (name : String) (ty : Ty) (dims : Option Dims),
      get_user_type_for_deep_copy edl ⟨name, ty, dims, none⟩ = none) ∧
    (∀ (edl : Edl) (name : String) (T : Ty) (dims : Option Dims) (attrs : Option Attrs),
      is_primitive T = true →
        get_user_type_for_deep_copy edl ⟨name, .Ptr T, dims, attrs⟩ = none) ∧
    (∀ (edl : Edl) (name : String) (T : Ty) (dims : Option Dims) (attrs : Option Attrs),
      get_user_type_for_deep_copy edl ⟨name, .Ptr (.Ptr T), dims, attrs⟩ = none) := by
  refine ⟨?_, ?_, ?_, ?_⟩
  · intro edl d ut
    obtain ⟨name, ty, dims, attrs⟩ := d
    cases attrs with
    | none => cases ty <;> simp [get_user_type_for_deep_copy]
    | some a =>
      by_cases hp : ∃ U, ty = .Ptr U
      · obtain ⟨U, rfl⟩ := hp
        have hcode : get_user_type_for_deep_copy edl ⟨name, .Ptr U, dims, some a⟩ =
            (match (match unconst U with
                | .Foreign n => get_user_type edl n
                | .Struct n => get_user_type edl n
                | _ => none) with
              | none => none
              | some u =>
                if iterate_deep_copyable_fields u (fun _ _ => true) false = true then some u
                else none) := by
          cases U <;> rfl
        rw [hcode, deep_copy_resolved, deep_copy_lookup]
        simp [and_assoc]
      · have hnone : get_user_type_for_deep_copy edl ⟨name, ty, dims, some a⟩ = none := by
          cases ty <;> first | rfl | exact absurd ⟨_, rfl⟩ hp
        rw [hnone]
        constructor
        · intro h; cases h
        · rintro ⟨_, U, hU, _⟩
          exact absurd ⟨U, hU⟩ hp
  · intro edl name ty dims
    cases ty <;> simp [get_user_type_for_deep_copy]
  · intro edl name T dims attrs hT
    cases attrs <;> cases T <;> simp_all [get_user_type_for_deep_copy, is_primitive]
  · intro edl name T dims attrs
    cases attrs <;> simp [get_user_type_for_deep_copy]

/-! ## Member-declaration rendering and `const` -/

/-- An occurrence of `w` in `a ++ c :: b` lies in `a` or in `b` when the
character `c` does not occur in `w`. -/
theorem infix_split_at {w a b : List Char} {c : Char} (hc : c ∉ w)
    (h : w <:+: a ++ c :: b) : w <:+: a ∨ w <:+: b := by
  induction a with
  | nil =>
    rcases List.infix_cons_iff.1 h with hp | hi
    · rcases List.prefix_cons_iff.1 hp with rfl | ⟨t, rfl, _⟩
      · exact Or.inl List.nil_infix
      · exact absurd (List.mem_cons_self c t) hc
    · exact Or.inr hi
  | cons x a ih =>
    rcases List.infix_cons_iff.1 h with hp | hi
    · have hfull : (x :: a) ++ [c] <+: x :: (a ++ c :: b) := ⟨b, by simp⟩
      rcases List.prefix_or_prefix_of_prefix hp hfull with h1 | h2
      · rcases List.prefix_concat_iff.1 h1 with rfl | h3
        · exact absurd (by simp) hc
        · exact Or.inl h3.isInfix
      · exact absurd (h2.subset (by simp)) hc
    · rcases ih hi with h1 | h2
      · exact Or.inl (List.infix_cons h1)
      · exact Or.inr h2

theorem no_const_sep {x z : List Char} (hx : ¬ "const".data <:+: x) (hz : sep_tail z) :
    ¬ "const".data <:+: x ++ z := by
  rcases hz with rfl | ⟨c, z1, rfl, hc, hz1⟩
  · simpa using hx
  · intro h
    rcases infix_split_at hc h with h1 | h2
    · exact hx h1
    · exact hz1 h2

theorem sep_tail_cons {c : Char} {z : List Char} (hc : c ∉ "const".data) (hz : sep_tail z) :
    sep_tail (c :: z) := by
  refine Or.inr ⟨c, z, rfl, hc, ?_⟩
  have := no_const_sep (x := []) (by decide) hz
  simpa using this

theorem sep_tail_of_no_const {c : Char} {z : List Char} (hc : c ∉ "const".data)
    (hz : ¬ "const".data <:+: z) : sep_tail (c :: z) :=
  Or.inr ⟨c, z, rfl, hc, hz⟩

/-- The text of a type without `Const` nodes, followed by a separated tail,
does not contain `const` when the base type's name does not. -/
theorem atype_str_no_const (t : Ty) (h0 : const_count t = 0)
    (hn : ¬ contains_const (base_name t)) :
    ∀ z, sep_tail z → ¬ "const".data <:+: (atype_str t).data ++ z := by
  induction t with
  | Const u _ => simp [const_count] at h0
  | Ptr u ih =>
    intro z hz
    have := ih (by simpa [const_count] using h0) (by simpa [base_name] using hn)
      ('*' :: z) (sep_tail_cons (by decide) hz)
    simpa [atype_str, String.data_append] using this
  | Unsigned u ih =>
    intro z hz
    have hu := ih (by simpa [const_count] using h0) (by simpa [base_name] using hn) z hz
    have : ¬ "const".data <:+: "unsigned".data ++ ' ' :: ((atype_str u).data ++ z) := by
      intro h
      rcases infix_split_at (by decide) h with h1 | h2
      · exact absurd h1 (by decide)
      · exact hu h2
    simpa [atype_str, String.data_append] using this
  | Struct n =>
    intro z hz
    have hn1 : ¬ "const".data <:+: n.data := by simpa [base_name, Ty.name_, contains_const] using hn
    have : ¬ "const".data <:+: "struct".data ++ ' ' :: (n.data ++ z) := by
      intro h
      rcases infix_split_at (by decide) h with h1 | h2
      · exact absurd h1 (by decide)
      · exact no_const_sep hn1 hz h2
    simpa [atype_str, String.data_append] using this
  | Enum n =>
    intro z hz
    have hn1 : ¬ "const".data <:+: n.data := by simpa [base_name, Ty.name_, contains_const] using hn
    have : ¬ "const".data <:+: "enum".data ++ ' ' :: (n.data ++ z) := by
      intro h
      rcases infix_split_at (by decide) h with h1 | h2
      · exact absurd h1 (by decide)
      · exact no_const_sep hn1 hz h2
    simpa [atype_str, String.data_append] using this
  | Union n =>
    intro z hz
    have hn1 : ¬ "const".data <:+: n.data := by simpa [base_name, Ty.name_, contains_const] using hn
    have : ¬ "const".data <:+: "union".data ++ ' ' :: (n.data ++ z) := by
      intro h
      rcases infix_split_at (by decide) h with h1 | h2
      · exact absurd h1 (by decide)
      · exact no_const_sep hn1 hz h2
    simpa [atype_str, String.data_append] using this
  | Foreign n =>
    intro z hz
    have hn1 : ¬ "const".data <:+: n.data := by simpa [base_name, Ty.name_, contains_const] using hn
    simpa [atype_str] using no_const_sep hn1 hz
  | Other n =>
    intro z hz
    simpa [atype_str] using no_const_sep (x := []) (by decide) hz
  | _ =>
    intro z hz
    exact no_const_sep (by decide) hz

/-- A leading `const ` is what `replace` finds and removes. -/
theorem replaceL_const_prefix (x : List Char) :
    replaceL ("const ".data ++ x) "const ".data [] = x := by
  simp [replaceL, findL, List.isPrefixOf]

/-- The search for `const ` steps over a character other than `c`. -/
theorem replaceL_cons_ne (c : Char) (s : List Char) (hc : c ≠ 'c') :
    replaceL (c :: s) "const ".data [] = c :: replaceL s "const ".data [] := by
  have hfind : findL "const ".data (c :: s) = (findL "const ".data s).map (· + 1) := by
    have hc2 : ¬ ('c' = c) := fun h => hc h.symm
    simp [findL, List.isPrefixOf, hc2]
  unfold replaceL
  rw [hfind]
  cases findL "const ".data s with
  | none => rfl
  | some i =>
    have : i + 1 + "const ".data.length = (i + "const ".data.length) + 1 := by omega
    simp only [Option.map_some', List.take_succ_cons, List.cons_append, this,
      List.drop_succ_cons]

/-- On the text of a type with exactly one `Const` node, followed by a
separated tail, `replace` leaves no `const` when the base type's name has
none. -/
theorem replaceL_single_const (t : Ty) (h1 : const_count t = 1)
    (hn : ¬ contains_const (base_name t)) :
    ∀ z, sep_tail z →
      ¬ "const".data <:+: replaceL ((atype_str t).data ++ z) "const ".data [] := by
  induction t with
  | Const u _ =>
    intro z hz
    have h0 : const_count u = 0 := by simpa [const_count] using h1
    have := atype_str_no_const u h0 (by simpa [base_name] using hn) z hz
    have hrw : (atype_str (.Const u)).data ++ z = "const ".data ++ ((atype_str u).data ++ z) := by
      simp [atype_str, String.data_append]
    rw [hrw, replaceL_const_prefix]
    exact this
  | Ptr u ih =>
    intro z hz
    have := ih (by simpa [const_count] using h1) (by simpa [base_name] using hn)
      ('*' :: z) (sep_tail_cons (by decide) hz)
    simpa [atype_str, String.data_append] using this
  | Unsigned u ih =>
    intro z hz
    have hu := ih (by simpa [const_count] using h1) (by simpa [base_name] using hn) z hz
    have hrw : (atype_str (.Unsigned u)).data ++ z =
        'u' :: 'n' :: 's' :: 'i' :: 'g' :: 'n' :: 'e' :: 'd' :: ' ' ::
          ((atype_str u).data ++ z) := by
      simp [atype_str, String.data_append]
    rw [hrw]
    repeat rw [replaceL_cons_ne _ _ (by decide)]
    intro h
    have h2 : "const".data <:+: "unsigned".data ++ ' ' ::
        replaceL ((atype_str u).data ++ z) "const ".data [] := by simpa using h
    rcases infix_split_at (by decide) h2 with h3 | h4
    · exact absurd h3 (by decide)
    · exact hu h4
  | _ => simp [const_count] at h1

/-- C8 (as stated, refuted): with two `Const` nodes in the chain, or with a
member name or a struct name that contains `const`, the member renderings
still contain `const`. -/
theorem member_const_remains :
    contains_const (mdecl_str "x" (.Const (.Ptr (.Const .Char))) none none) ∧
    contains_const (mtype_str ⟨"x", .Const (.Ptr (.Const .Char)), none, none⟩) ∧
    contains_const (mdecl_str "constant" (.Const .Int) none none) ∧
    contains_const (mtype_str ⟨"f", .Ptr (.Const (.Struct "const_t")), none, none⟩) := by
  decide

/-- C8 (amended): for every type with exactly one `Const` node in its chain
whose base type's name does not contain `const`, and every name, dimensions
and attributes, the text of `mtype_str` does not contain `const`, and neither
does the text of `mdecl_str` when the member name does not contain `const`. -/
theorem member_single_const_dropped (name : String) (ty : Ty) (dims : Option Dims)
    (attrs : Option Attrs) (h1 : const_count ty = 1)
    (hn : ¬ contains_const (base_name ty)) :
    ¬ contains_const (mtype_str ⟨name, ty, dims, attrs⟩) ∧
    (¬ contains_const name → ¬ contains_const (mdecl_str name ty dims attrs)) := by
  have htag : ty.tag_ ≠ AType.Foreign := by
    intro h
    cases ty <;> simp_all [Ty.tag_, const_count]
  constructor
  · have hz : sep_tail (if dims.isSome then "*" else "").data := by
      cases dims with
      | none => exact Or.inl rfl
      | some ds => exact sep_tail_cons (z := []) (by decide) (Or.inl rfl)
    have := replaceL_single_const ty h1 hn _ hz
    simpa [mtype_str, htag, contains_const, replace, String.data_append] using this
  · intro hname
    have hname1 : ¬ "const".data <:+: name.data := hname
    have hz : sep_tail ((if dims.isSome then "* " else " ").data ++ name.data) := by
      cases dims with
      | none => exact sep_tail_of_no_const (by decide) hname1
      | some ds =>
        exact sep_tail_cons (by decide) (sep_tail_of_no_const (by decide) hname1)
    have := replaceL_single_const ty h1 hn _ hz
    simpa [mdecl_str, htag, contains_const, replace, String.data_append] using this

/-- C8 witness: a pointer to `const char` member with dimensions. -/
theorem member_single_const_dropped_witness :
    ¬ contains_const (mtype_str ⟨"buf", .Ptr (.Const .Char), some ["4"], none⟩) ∧
    (¬ contains_const "buf" →
      ¬ contains_const (mdecl_str "buf" (.Ptr (.Const .Char)) (some ["4"]) none)) :=
  member_single_const_dropped "buf" (.Ptr (.Const .Char)) (some ["4"]) none rfl (by decide)

/-! ## Declaration renderer: composite types, declarations, base types -/

theorem stars_succ (k : Nat) : stars (k + 1) = stars k ++ "*" := by
  apply String.ext
  simp only [stars, String.data_append]
  rw [List.replicate_succ']

/-- C11: `atype_str` renders composite types structurally: keyword plus name
for `Enum`/`Struct`/`Union`, the bare name for `Foreign`, `const `/`unsigned `
in front of the inner text, and the inner text followed by `*` for `Ptr`; so
`k` pointer layers around `t` render as the text of `t` followed by `k`
stars.  `atype_str` is a total function on the finite type trees. -/
theorem atype_str_composite :
    (∀ n, atype_str (.Enum n) = "enum " ++ n) ∧
    (∀ n, atype_str (.Struct n) = "struct " ++ n) ∧
    (∀ n, atype_str (.Union n) = "union " ++ n) ∧
    (∀ n, atype_str (.Foreign n) = n) ∧
    (∀ t, atype_str (.Const t) = "const " ++ atype_str t) ∧
    (∀ t, atype_str (.Unsigned t) = "unsigned " ++ atype_str t) ∧
    (∀ t, atype_str (.Ptr t) = atype_str t ++ "*") ∧
    (∀ k t, atype_str (ptr_layers k t) = atype_str t ++ stars k) := by
  refine ⟨fun _ => rfl, fun _ => rfl, fun _ => rfl, fun _ => rfl, fun _ => rfl,
    fun _ => rfl, fun _ => rfl, ?_⟩
  intro k t
  induction k with
  | zero => apply String.ext; simp [ptr_layers, stars]
  | succ k ih =>
    simp only [ptr_layers, atype_str, ih, stars_succ]
    apply String.ext
    simp [String.data_append]

theorem front_test_eq (name : String) :
    ((front name).isAlpha || front name == '_') = ident_leading name := by
  unfold front ident_leading
  cases h : name.data with
  | nil => simp only [List.headD_nil]; decide
  | cons c cs => simp

theorem dims_str_eq_bracketed (dims : Option Dims) :
    dims_str dims = bracketed (dims.getD []) := by
  cases dims with
  | none => rfl
  | some ds => simp [dims_str, dims_list_eq_bracketed]

/-- C12 (as stated, refuted): a non-pointer type with an empty name, or with
a name that begins with a non-identifier character, gets no space. -/
theorem decl_str_space_fails :
    decl_str "" .Int (some ["2"]) ≠ atype_str .Int ++ " " ++ "" ++ bracketed ["2"] ∧
    decl_str "(f)" .Int none ≠ atype_str .Int ++ " " ++ "(f)" ++ bracketed [] := by
  decide

/-- C12 (amended): `decl_str` places one space between the type text and the
name exactly when the name begins with a letter or an underscore, whatever
the type text ends in; an empty name and a name beginning with any other
character get no space.  The dimensions follow the name as `[d0][d1]...` in
declared order. -/
theorem decl_str_eq (name : String) (t : Ty) (dims : Option Dims) :
    decl_str name t dims =
      atype_str t ++ (if ident_leading name = true then " " else "") ++ name ++
        bracketed (dims.getD []) := by
  unfold decl_str
  rw [front_test_eq, dims_str_eq_bracketed]
  cases ident_leading name
  · simp only [Bool.false_eq_true, if_false]
    apply String.ext
    simp [String.data_append]
  · simp only [if_true]

theorem btype_eq_chain_base (t : Ty) : btype t = atype_str (chain_base t) := by
  induction t with
  | Const u ih => simpa [btype, chain_base] using ih
  | Ptr u ih => simpa [btype, chain_base] using ih
  | _ => rfl

theorem chain_base_tag (t : Ty) :
    (chain_base t).tag_ ≠ AType.Const ∧ (chain_base t).tag_ ≠ AType.Ptr := by
  induction t with
  | Const u ih => simpa [chain_base] using ih
  | Ptr u ih => simpa [chain_base] using ih
  | _ => simp [chain_base, Ty.tag_]

/-- C13: `btype` strips `Ptr` and `Const` layers and is `atype_str` on every
type whose tag is neither; so on any chain of `Const`/`Ptr` layers it returns
the text of the base type under them, whose tag is neither `Const` nor
`Ptr`. -/
theorem btype_strips :
    (∀ t, btype (.Ptr t) = btype t) ∧
    (∀ t, btype (.Const t) = btype t) ∧
    (∀ t, t.tag_ ≠ AType.Const → t.tag_ ≠ AType.Ptr → btype t = atype_str t) ∧
    (∀ t, btype t = atype_str (chain_base t) ∧
      (chain_base t).tag_ ≠ AType.Const ∧ (chain_base t).tag_ ≠ AType.Ptr) := by
  refine ⟨fun _ => rfl, fun _ => rfl, ?_, fun t => ⟨btype_eq_chain_base t, chain_base_tag t⟩⟩
  intro t hc hp
  cases t <;> first | rfl | exact absurd rfl hc | exact absurd rfl hp

/-- C13 witness: a pointer to a const pointer to `struct S` has base text
`struct S`, and `unsigned int` is its own base. -/
theorem btype_strips_witness :
    btype (.Ptr (.Const (.Ptr (.Struct "S")))) = "struct S" ∧
    btype (.Unsigned .Int) = atype_str (.Unsigned .Int) :=
  ⟨by rw [(btype_strips.2.2.2 _).1]; decide,
   btype_strips.2.2.1 (.Unsigned .Int) (by decide) (by decide)⟩

/-! ## Signature builder: theorems -/

theorem prototype_eq (f : Function) (ecall gen_t : Bool) :
    prototype f ecall gen_t =
      prototype_retstr f ecall gen_t ++ " " ++ f.name_ ++
        prototype_argsstr ecall gen_t (prototype_args f ecall gen_t) := rfl

theorem prototype_args_eq (f : Function) (ecall gen_t : Bool) :
    prototype_args f ecall gen_t =
      (if ecall = true ∧ gen_t = false then ["oe_enclave_t* enclave"] else []) ++
      (if ecall ≠ gen_t ∧ f.rtype_.tag_ ≠ AType.Void then
        [atype_str f.rtype_ ++ "* _retval"] else []) ++
      param_texts f := by
  unfold prototype_args param_texts
  by_cases hv : f.rtype_.tag_ = AType.Void <;> cases ecall <;> cases gen_t <;> simp [hv]

theorem args_tail_eq (acc : String) (rest : List String) :
    args_tail acc rest =
      acc ++ String.join (rest.map (fun a => "," ++ "\n    " ++ a)) := by
  induction rest generalizing acc with
  | nil => apply String.ext; simp [args_tail, String.join]
  | cons a rest ih =>
    simp only [args_tail, List.map_cons, join_cons, ih]
    apply String.ext
    simp [String.data_append]

theorem prototype_argsstr_eq (ecall gen_t : Bool) (args : List String) :
    prototype_argsstr ecall gen_t args = formatted_args ecall gen_t args := by
  match args with
  | [] => cases ecall <;> cases gen_t <;> rfl
  | [a0] => rfl
  | a0 :: a1 :: rest =>
    simp only [prototype_argsstr, formatted_args, args_tail_eq]
    apply String.ext
    simp [String.data_append]

theorem prototype_args_handle (f : Function) :
    prototype_args f true false =
      "oe_enclave_t* enclave" :: (retval_arg f ++ param_texts f) := by
  rw [prototype_args_eq]
  by_cases hv : f.rtype_.tag_ = AType.Void <;> simp [retval_arg, hv]

theorem formatted_handle_ne_void (rest : List String) :
    formatted_args true false ("oe_enclave_t* enclave" :: rest) ≠ "(void)" := by
  cases rest with
  | nil => decide
  | cons a rest =>
    intro h
    have := congrArg String.data h
    simp [formatted_args, String.data_append] at this

/-- C14: `prototype` selects the return type and the leading arguments from
the two booleans.  With `ecall = gen_t` the text is the declared return type,
a space, the name, and the formatted list of the parameters' `decl_str`
texts in declared order; with `ecall != gen_t` it is `oe_result_t`, a space,
the name, and the formatted list of the enclave handle (only for `ecall` and
not `gen_t`), the `_retval` out-parameter (only for a non-`Void` return
type) and the parameters, in that order. -/
theorem prototype_variants (f : Function) :
    prototype f true true =
      atype_str f.rtype_ ++ " " ++ f.name_ ++
        formatted_args true true
          (f.params_.map (fun p => decl_str p.name_ p.type_ p.dims_)) ∧
    prototype f false false =
      atype_str f.rtype_ ++ " " ++ f.name_ ++
        formatted_args false false
          (f.params_.map (fun p => decl_str p.name_ p.type_ p.dims_)) ∧
    prototype f true false =
      "oe_result_t " ++ f.name_ ++
        formatted_args true false
          ("oe_enclave_t* enclave" ::
            ((if f.rtype_.tag_ = AType.Void then []
              else [atype_str f.rtype_ ++ "* _retval"]) ++
              f.params_.map (fun p => decl_str p.name_ p.type_ p.dims_))) ∧
    prototype f false true =
      "oe_result_t " ++ f.name_ ++
        formatted_args false true
          ((if f.rtype_.tag_ = AType.Void then []
            else [atype_str f.rtype_ ++ "* _retval"]) ++
            f.params_.map (fun p => decl_str p.name_ p.type_ p.dims_)) := by
  have hret1 : prototype_retstr f true false ++ " " = "oe_result_t " := rfl
  have hret2 : prototype_retstr f false true ++ " " = "oe_result_t " := rfl
  refine ⟨?_, ?_, ?_, ?_⟩
  · rw [prototype_eq, prototype_argsstr_eq, prototype_args_eq]
    simp [prototype_retstr, param_texts]
  · rw [prototype_eq, prototype_argsstr_eq, prototype_args_eq]
    simp [prototype_retstr, param_texts]
  · rw [prototype_eq, prototype_argsstr_eq, prototype_args_eq, hret1]
    by_cases hv : f.rtype_.tag_ = AType.Void <;> simp [param_texts, hv]
  · rw [prototype_eq, prototype_argsstr_eq, prototype_args_eq, hret2]
    by_cases hv : f.rtype_.tag_ = AType.Void <;> simp [param_texts, hv]

/-- C14 at a function `int f(int x)`: the four variants. -/
theorem prototype_variants_witness :
    prototype ⟨"f", .Int, [⟨"x", .Int, none, none⟩]⟩ true true = "int f(int x)" ∧
    prototype ⟨"f", .Int, [⟨"x", .Int, none, none⟩]⟩ false false = "int f(int x)" ∧
    prototype ⟨"f", .Int, [⟨"x", .Int, none, none⟩]⟩ true false =
      "oe_result_t f(\n    oe_enclave_t* enclave,\n    int* _retval,\n    int x)" ∧
    prototype ⟨"f", .Int, [⟨"x", .Int, none, none⟩]⟩ false true =
      "oe_result_t f(\n    int* _retval,\n    int x)" := by
  have h := prototype_variants ⟨"f", .Int, [⟨"x", .Int, none, none⟩]⟩
  refine ⟨h.1.trans ?_, h.2.1.trans ?_, h.2.2.1.trans ?_, h.2.2.2.trans ?_⟩ <;> decide

/-- C15: `prototype` formats the collected arguments by their number: one
argument on a single line, two or more one per line, and none as `(void)`,
or as an open parenthesis, a newline, four spaces and a closing parenthesis
when `gen_t` is true and `ecall` is false.  With `ecall` true and `gen_t`
false the list is never empty and the argument text is never `(void)`. -/
theorem prototype_format :
    (∀ (f : Function) (ecall gen_t : Bool),
      prototype f ecall gen_t =
        prototype_retstr f ecall gen_t ++ " " ++ f.name_ ++
          formatted_args ecall gen_t (prototype_args f ecall gen_t)) ∧
    (∀ f : Function, prototype_args f true false ≠ []) ∧
    (∀ f : Function,
      prototype_argsstr true false (prototype_args f true false) ≠ "(void)") := by
  refine ⟨fun f e g => by rw [prototype_eq, prototype_argsstr_eq], ?_, ?_⟩
  · intro f
    rw [prototype_args_eq]
    simp
  · intro f
    rw [prototype_args_handle, prototype_argsstr_eq]
    exact formatted_handle_ne_void _

/-! ## Size-expression builder: prefix, element-size term, fallbacks -/

theorem count_attr_str_no_name (t : Token) (pre1 pre2 : String) (h : t.is_name = false) :
    count_attr_str t pre1 = count_attr_str t pre2 := by
  simp [count_attr_str, h]

/-- The token rules of `psize`, reached by a declaration with attributes
that is not string-flagged, has no dimensions and is not a `Foreign` array. -/
theorem psize_token_rules (name pre : String) (ty : Ty) (dims : Option Dims) (a : Attrs)
    (hs : a.string_ = false) (hw : a.wstring_ = false)
    (hd : dims = none ∨ dims = some [])
    (hary : ¬ (ty.tag_ = AType.Foreign ∧ a.isary_ = true)) :
    psize ⟨name, ty, dims, some a⟩ pre =
      some (if a.size_.is_empty = false ∧ a.count_.is_empty = false then
          "(" ++ rendered a.size_ pre ++ " * " ++ rendered a.count_ pre ++ ")"
        else if a.count_.is_empty = false then
          "((size_t)" ++ rendered a.count_ pre ++ " * " ++
            psize_elem ⟨name, ty, dims, some a⟩ ++ ")"
        else if a.size_.is_empty = false then rendered a.size_ pre
        else psize_elem ⟨name, ty, dims, some a⟩) := by
  have hdims : has_dims dims = false := by
    rcases hd with h | h <;> simp [h, has_dims]
  have hary2 : (decide (ty.tag_ = AType.Foreign) && attrs_isary (some a)) = false := by
    simp only [attrs_isary]
    by_cases h1 : ty.tag_ = AType.Foreign
    · have : a.isary_ = false := by
        cases h2 : a.isary_
        · rfl
        · exact absurd ⟨h1, h2⟩ hary
      simp [this]
    · simp [h1]
  simp only [psize, attrs_string, hs, hw, hdims, hary2, size_attr_str,
    count_attr_str_eq_rendered]
  cases a.size_.is_empty <;> cases a.count_.is_empty <;> simp

/-- C16: the prefix affects only name-reference tokens.  Both token
renderers put the prefix in front of a name and leave a literal unchanged;
a declaration with attributes that is not string-flagged and whose tokens
are not names has the same `psize` for all prefixes; and in each token rule
the output is built from the rendered tokens, where a name token has the
prefix immediately before it. -/
theorem prefix_only_names :
    (∀ s pre, count_attr_str (.name s) pre = pre ++ s ∧
      size_attr_str (.name s) pre = pre ++ s) ∧
    (∀ s pre, count_attr_str (.literal s) pre = s ∧ size_attr_str (.literal s) pre = s) ∧
    (∀ (name : String) (ty : Ty) (dims : Option Dims) (a : Attrs) (pre1 pre2 : String),
      a.string_ = false → a.wstring_ = false →
      a.size_.is_name = false → a.count_.is_name = false →
      psize ⟨name, ty, dims, some a⟩ pre1 = psize ⟨name, ty, dims, some a⟩ pre2) ∧
    (∀ (name pre : String) (ty : Ty) (dims : Option Dims) (a : Attrs),
      a.string_ = false → a.wstring_ = false → (dims = none ∨ dims = some []) →
      ¬ (ty.tag_ = AType.Foreign ∧ a.isary_ = true) →
      psize ⟨name, ty, dims, some a⟩ pre =
        some (if a.size_.is_empty = false ∧ a.count_.is_empty = false then
            "(" ++ rendered a.size_ pre ++ " * " ++ rendered a.count_ pre ++ ")"
          else if a.count_.is_empty = false then
            "((size_t)" ++ rendered a.count_ pre ++ " * " ++
              psize_elem ⟨name, ty, dims, some a⟩ ++ ")"
          else if a.size_.is_empty = false then rendered a.size_ pre
          else psize_elem ⟨name, ty, dims, some a⟩)) ∧
    (∀ s pre, rendered (.name s) pre = pre ++ s) := by
  refine ⟨fun _ _ => ⟨rfl, rfl⟩, fun _ _ => ⟨rfl, rfl⟩, ?_, ?_, fun _ _ => rfl⟩
  · intro name ty dims a pre1 pre2 hs hw hsz hct
    simp only [psize, attrs_string, hs, hw, size_attr_str,
      count_attr_str_no_name a.size_ pre1 pre2 hsz,
      count_attr_str_no_name a.count_ pre1 pre2 hct]
    simp
  · intro name pre ty dims a hs hw hd hary
    exact psize_token_rules name pre ty dims a hs hw hd hary

/-- C16 witness: with literal tokens two prefixes give the same text, and a
name token in the count rule gets the prefix in front of it. -/
theorem prefix_only_names_witness :
    psize ⟨"p", .Ptr .Int, none, some ⟨false, false, false, false, .literal "8", .empty⟩⟩ "a->"
      = psize ⟨"p", .Ptr .Int, none, some ⟨false, false, false, false, .literal "8", .empty⟩⟩ "b." ∧
    psize ⟨"p", .Ptr .Int, none, some ⟨false, false, false, false, .empty, .name "n"⟩⟩ "a->"
      = some "((size_t)a->n * sizeof(int))" :=
  ⟨prefix_only_names.2.2.1 "p" (.Ptr .Int) none
      ⟨false, false, false, false, .literal "8", .empty⟩ "a->" "b." rfl rfl rfl rfl,
   by rw [prefix_only_names.2.2.2.1 "p" "a->" (.Ptr .Int) none
      ⟨false, false, false, false, .empty, .name "n"⟩ rfl rfl (Or.inl rfl) (by decide)]
      decide⟩

theorem product_sizeof_origin (S C : String)
    (h : contains_sizeof ("(" ++ S ++ " * " ++ C ++ ")")) :
    contains_sizeof S ∨ contains_sizeof C := by
  have h0 : "sizeof".data <:+: [] ++ '(' :: (S.data ++ ' ' :: ([] ++ '*' ::
      ([] ++ ' ' :: (C.data ++ ')' :: [])))) := by
    simpa [contains_sizeof, String.data_append] using h
  have hnil : ¬ "sizeof".data <:+: [] := by decide
  rcases infix_split_at (by decide) h0 with h1 | h1
  · exact absurd h1 hnil
  rcases infix_split_at (by decide) h1 with h2 | h2
  · exact Or.inl h2
  rcases infix_split_at (by decide) h2 with h3 | h3
  · exact absurd h3 hnil
  rcases infix_split_at (by decide) h3 with h4 | h4
  · exact absurd h4 hnil
  rcases infix_split_at (by decide) h4 with h5 | h5
  · exact Or.inr h5
  · exact absurd h5 hnil

/-- C17 (as stated, refuted): with the prefix `sizeof_` the text contains
`sizeof` although neither token's own text does. -/
theorem psize_sizeof_from_prefix :
    psize ⟨"p", .Ptr .Int, none,
        some ⟨false, false, false, false, .name "n", .literal "4"⟩⟩ "sizeof_"
      = some "(sizeof_n * 4)" ∧
    contains_sizeof "(sizeof_n * 4)" ∧
    ¬ contains_sizeof (Token.name "n").str ∧ ¬ contains_sizeof (Token.literal "4").str := by
  decide

/-- C17 (amended): when both tokens are present the element-size term is
ignored: two declarations that differ only in their type, with attributes,
neither string-flagged nor `isary_`-flagged, without dimensions, have the
same `psize` for the same prefix, namely the parenthesised product of the
rendered tokens, and that text contains `sizeof` only if a rendered token (a
name token's text with the prefix in front, a literal's text) contains it. -/
theorem psize_both_ignores_type (name pre : String) (ty1 ty2 : Ty) (dims : Option Dims)
    (a : Attrs) (hs : a.string_ = false) (hw : a.wstring_ = false)
    (hary : a.isary_ = false) (hd : dims = none ∨ dims = some [])
    (hsize : a.size_.is_empty = false) (hcount : a.count_.is_empty = false) :
    psize ⟨name, ty1, dims, some a⟩ pre = psize ⟨name, ty2, dims, some a⟩ pre ∧
    psize ⟨name, ty1, dims, some a⟩ pre =
      some ("(" ++ rendered a.size_ pre ++ " * " ++ rendered a.count_ pre ++ ")") ∧
    (contains_sizeof ("(" ++ rendered a.size_ pre ++ " * " ++ rendered a.count_ pre ++ ")") →
      contains_sizeof (rendered a.size_ pre) ∨ contains_sizeof (rendered a.count_ pre)) := by
  have h1 := psize_token_rules name pre ty1 dims a hs hw hd (by simp [hary])
  have h2 := psize_token_rules name pre ty2 dims a hs hw hd (by simp [hary])
  simp only [hsize, hcount, and_self, if_true] at h1 h2
  exact ⟨h1.trans h2.symm, h1, product_sizeof_origin _ _⟩

/-- C17 witness: a pointer to `int` and a `Foreign` type with the same
tokens. -/
theorem psize_both_ignores_type_witness :
    psize ⟨"p", .Ptr .Int, none,
        some ⟨false, true, false, false, .name "sz", .literal "4"⟩⟩ "a->" =
      psize ⟨"p", .Foreign "T", none,
        some ⟨false, true, false, false, .name "sz", .literal "4"⟩⟩ "a->" :=
  (psize_both_ignores_type "p" "a->" (.Ptr .Int) (.Foreign "T") none
    ⟨false, true, false, false, .name "sz", .literal "4"⟩ rfl rfl rfl (Or.inl rfl) rfl rfl).1

/-- C18: on a declaration whose `Dims` is present but empty the member
renderers append the pointer marker, unlike for the same declaration with
`Dims` absent, while `psize` takes the empty `Dims` for no dimensions. -/
theorem member_empty_dims_star :
    mtype_str ⟨"x", .Int, some [], none⟩ = "int*" ∧
    mtype_str ⟨"x", .Int, none, none⟩ = "int" ∧
    mdecl_str "x" .Int (some []) none = "int* x" ∧
    mdecl_str "x" .Int none none = "int x" ∧
    has_dims (some []) = false := by
  decide

/-- C19 (as stated, refuted): a `Foreign` type flagged `isary_` and not
`isptr_` is not `Ptr` and not a `Foreign` flagged `isptr_`, yet with a count
token alone `psize` is the `sizeof` of the type name, not the product with
the missing operand. -/
theorem psize_foreign_array_count :
    psize ⟨"x", .Foreign "T", none,
        some ⟨true, false, false, false, .empty, .name "n"⟩⟩ "" = some "sizeof(T)" ∧
    psize ⟨"x", .Foreign "T", none,
        some ⟨true, false, false, false, .empty, .name "n"⟩⟩ "" ≠
      some ("((size_t)" ++ count_attr_str (.name "n") "" ++ " * )") := by
  decide

/-- C19 (amended): for a declaration whose type is not `Ptr` and is not a
`Foreign` flagged `isptr_` or `isary_`, that is not string-flagged, has no
dimensions, and carries a count token but no size token, the element-size
term is empty and `psize` is `((size_t)C * )` with `C` the rendered count
token; a string is returned. -/
theorem psize_missing_operand (name pre : String) (ty : Ty) (dims : Option Dims)
    (a : Attrs) (hptr : ty.tag_ ≠ AType.Ptr)
    (hfp : ¬ (ty.tag_ = AType.Foreign ∧ a.isptr_ = true))
    (hfa : ¬ (ty.tag_ = AType.Foreign ∧ a.isary_ = true))
    (hs : a.string_ = false) (hw : a.wstring_ = false)
    (hd : dims = none ∨ dims = some [])
    (hcount : a.count_.is_empty = false) (hsize : a.size_.is_empty = true) :
    psize_elem ⟨name, ty, dims, some a⟩ = "" ∧
    psize ⟨name, ty, dims, some a⟩ pre =
      some ("((size_t)" ++ count_attr_str a.count_ pre ++ " * )") := by
  have helem : psize_elem ⟨name, ty, dims, some a⟩ = "" := by
    cases ty <;> simp_all [psize_elem, Ty.tag_, attrs_isptr]
  refine ⟨helem, ?_⟩
  rw [psize_token_rules name pre ty dims a hs hw hd hfa, helem, count_attr_str_eq_rendered]
  simp only [hsize, hcount, Bool.true_eq_false, false_and, if_false, if_true,
    Option.some.injEq]
  apply String.ext
  simp [String.data_append]

/-- C19 witness: a `Foreign` type with neither flag and count token `n`. -/
theorem psize_missing_operand_witness :
    psize_elem ⟨"x", .Foreign "T", none,
        some ⟨false, false, false, false, .empty, .name "n"⟩⟩ = "" ∧
    psize ⟨"x", .Foreign "T", none,
        some ⟨false, false, false, false, .empty, .name "n"⟩⟩ "" = some "((size_t)n * )" :=
  psize_missing_operand "x" "" (.Foreign "T") none
    ⟨false, false, false, false, .empty, .name "n"⟩ (by decide) (by decide) (by decide)
    rfl rfl (Or.inl rfl) rfl rfl

/-- C20: on a `Foreign` type whose name ends in `const`, without dimensions,
`mdecl_str` removes the `const ` formed by the end of the type name and the
separator, so its text is not `mtype_str` of the same declaration followed
by a space and the name. -/
theorem mdecl_str_eats_type_name :
    mdecl_str "x" (.Foreign "myconst") none none = "myx" ∧
    mtype_str ⟨"x", .Foreign "myconst", none, none⟩ ++ " " ++ "x" = "myconst x" := by
  decide

/-! ## The element-size term of a pointer: which `const` is removed -/

theorem drop_const_of_zero (t : Ty) (h0 : const_count t = 0) : drop_const t = t := by
  induction t with
  | Const u _ => simp [const_count] at h0
  | Ptr u ih => simp [drop_const, ih (by simpa [const_count] using h0)]
  | Unsigned u ih => simp [drop_const, ih (by simpa [const_count] using h0)]
  | _ => rfl

/-- On the text of a type with exactly one `Const` node `replace` removes
that node's `const `. -/
theorem replaceL_drop_const (t : Ty) (h1 : const_count t = 1) :
    ∀ z, replaceL ((atype_str t).data ++ z) "const ".data [] =
      (atype_str (drop_const t)).data ++ z := by
  induction t with
  | Const u _ =>
    intro z
    have h0 : const_count u = 0 := by simpa [const_count] using h1
    have hrw : (atype_str (.Const u)).data ++ z = "const ".data ++ ((atype_str u).data ++ z) := by
      simp [atype_str, String.data_append]
    rw [hrw, replaceL_const_prefix]
    simp [drop_const, drop_const_of_zero u h0]
  | Ptr u ih =>
    intro z
    have := ih (by simpa [const_count] using h1) ('*' :: z)
    simpa [atype_str, drop_const, String.data_append] using this
  | Unsigned u ih =>
    intro z
    have hu := ih (by simpa [const_count] using h1) z
    have hrw : (atype_str (.Unsigned u)).data ++ z =
        'u' :: 'n' :: 's' :: 'i' :: 'g' :: 'n' :: 'e' :: 'd' :: ' ' ::
          ((atype_str u).data ++ z) := by
      simp [atype_str, String.data_append]
    have hrw2 : (atype_str (drop_const (.Unsigned u))).data ++ z =
        'u' :: 'n' :: 's' :: 'i' :: 'g' :: 'n' :: 'e' :: 'd' :: ' ' ::
          ((atype_str (drop_const u)).data ++ z) := by
      simp [atype_str, drop_const, String.data_append]
    rw [hrw, hrw2]
    repeat rw [replaceL_cons_ne _ _ (by decide)]
    rw [hu]
  | _ => simp [const_count] at h1

theorem findL_none_of_not_infix (p s : List Char) (h : ¬ p <:+: s) : findL p s = none := by
  induction s with
  | nil =>
    have hp : p ≠ [] := fun hp => h (hp ▸ List.nil_infix)
    simp [findL, hp]
  | cons c s ih =>
    have h1 : ¬ p <+: c :: s := fun hp => h hp.isInfix
    have h2 : ¬ p <:+: s := fun hi => h (List.infix_cons hi)
    have h3 : p.isPrefixOf (c :: s) = false := by
      cases hb : p.isPrefixOf (c :: s)
      · rfl
      · exact absurd (List.isPrefixOf_iff_prefix.1 hb) h1
    simp [findL, h3, ih h2]

theorem no_const_blank_stars (x : List Char) (hx : ¬ "const ".data <:+: x) (k : Nat) :
    ¬ "const ".data <:+: x ++ List.replicate k '*' := by
  cases k with
  | zero => simpa using hx
  | succ k =>
    intro h
    rw [List.replicate_succ] at h
    rcases infix_split_at (by decide) h with h1 | h2
    · exact hx h1
    · have := h2.subset (show 'c' ∈ "const ".data by decide)
      simp at this

/-- The text of a type without `Const` nodes, followed by pointer markers,
does not contain `const ` when the base type's name does not. -/
theorem atype_str_no_const_blank (t : Ty) (h0 : const_count t = 0)
    (hn : ¬ "const ".data <:+: (base_name t).data) :
    ∀ k, ¬ "const ".data <:+: (atype_str t).data ++ List.replicate k '*' := by
  induction t with
  | Const u _ => simp [const_count] at h0
  | Ptr u ih =>
    intro k
    have := ih (by simpa [const_count] using h0) (by simpa [base_name] using hn) (k + 1)
    simpa [atype_str, String.data_append, List.replicate_succ] using this
  | Unsigned u ih =>
    intro k
    have := ih (by simpa [const_count] using h0) (by simpa [base_name] using hn) k
    simpa [atype_str, String.data_append, List.infix_cons_iff, List.cons_prefix_cons]
      using this
  | Struct n =>
    intro k
    have := no_const_blank_stars n.data (by simpa [base_name, Ty.name_] using hn) k
    simpa [atype_str, String.data_append, List.infix_cons_iff, List.cons_prefix_cons]
      using this
  | Enum n =>
    intro k
    have := no_const_blank_stars n.data (by simpa [base_name, Ty.name_] using hn) k
    simpa [atype_str, String.data_append, List.infix_cons_iff, List.cons_prefix_cons]
      using this
  | Union n =>
    intro k
    have := no_const_blank_stars n.data (by simpa [base_name, Ty.name_] using hn) k
    simpa [atype_str, String.data_append, List.infix_cons_iff, List.cons_prefix_cons]
      using this
  | Foreign n =>
    intro k
    have := no_const_blank_stars n.data (by simpa [base_name, Ty.name_] using hn) k
    simpa [atype_str] using this
  | _ =>
    intro k
    have := no_const_blank_stars [] (by decide) k
    simpa [atype_str, String.data_append, List.infix_cons_iff, List.cons_prefix_cons]
      using this

/-- What `replace` makes of a pointee's text: the text of the type without
its `Const` node, when there is exactly one, or when there is none and the
base type's name does not contain `const ` either. -/
theorem replace_const_eq_drop (T : Ty)
    (hT : const_count T = 1 ∨
      (const_count T = 0 ∧ ¬ contains_const_blank (base_name T))) :
    replace (atype_str T) "const " "" = atype_str (drop_const T) := by
  apply String.ext
  show replaceL (atype_str T).data "const ".data [] = (atype_str (drop_const T)).data
  rcases hT with h1 | ⟨h0, hn⟩
  · simpa using replaceL_drop_const T h1 []
  · have hno : ¬ "const ".data <:+: (atype_str T).data := by
      simpa using atype_str_no_const_blank T h0 hn 0
    rw [drop_const_of_zero T h0]
    simp [replaceL, findL_none_of_not_infix _ _ hno]

/-- C1 (as stated, refuted): with two `Const` nodes in the pointee the
element text keeps a `const` qualifier, and on a pointee without `Const`
whose name contains `const ` the element text loses part of the name. -/
theorem psize_count_const_remains :
    psize ⟨"buf", .Ptr (.Const (.Const .Int)), none,
        some ⟨false, false, false, false, .empty, .literal "2"⟩⟩ ""
      = some "((size_t)2 * sizeof(const int))" ∧
    psize ⟨"buf", .Ptr (.Const (.Const .Int)), none,
        some ⟨false, false, false, false, .empty, .literal "2"⟩⟩ ""
      ≠ some ("((size_t)" ++ rendered (.literal "2") "" ++ " * sizeof(" ++
          atype_str (drop_const (.Const (.Const .Int))) ++ "))") ∧
    psize ⟨"buf", .Ptr (.Foreign "const x"), none,
        some ⟨false, false, false, false, .empty, .literal "2"⟩⟩ ""
      ≠ some ("((size_t)" ++ rendered (.literal "2") "" ++ " * sizeof(" ++
          atype_str (drop_const (.Foreign "const x")) ++ "))") := by
  decide

/-- C1 (amended): for a declaration of type `Ptr(T)`, where `T` has exactly
one `Const` node in its chain, or has none and a base-type name that does
not contain `const ` , that is not string-flagged, has no dimensions (absent
or empty), and carries a count token but no size token, `psize` is
`((size_t)C * sizeof(E))` with `C` the count token rendered with the prefix
and `E` the text of `T` without its `Const` node. -/
theorem psize_count_only_drop (name pre : String) (T : Ty) (dims : Option Dims)
    (a : Attrs)
    (hT : const_count T = 1 ∨
      (const_count T = 0 ∧ ¬ contains_const_blank (base_name T)))
    (hs : a.string_ = false) (hw : a.wstring_ = false)
    (hd : dims = none ∨ dims = some [])
    (hcount : a.count_.is_empty = false) (hsize : a.size_.is_empty = true) :
    psize ⟨name, .Ptr T, dims, some a⟩ pre =
      some ("((size_t)" ++ rendered a.count_ pre ++ " * sizeof(" ++
        atype_str (drop_const T) ++ "))") := by
  rw [psize_count_only name pre T dims a hs hw hd hcount hsize,
    replace_const_eq_drop T hT, count_attr_str_eq_rendered]

/-- C1 witness: `buf`, pointer to `uint8_t`, count token `len`, empty
prefix; and the same with a pointer to `const uint8_t` and a prefix. -/
theorem psize_count_only_drop_witness :
    psize ⟨"buf", .Ptr .UInt8, none,
        some ⟨false, false, false, false, .empty, .name "len"⟩⟩ ""
      = some "((size_t)len * sizeof(uint8_t))" ∧
    psize ⟨"buf", .Ptr (.Const .UInt8), some [],
        some ⟨false, false, false, false, .empty, .name "len"⟩⟩ "a->"
      = some "((size_t)a->len * sizeof(uint8_t))" :=
  ⟨psize_count_only_drop "buf" "" .UInt8 none
      ⟨false, false, false, false, .empty, .name "len"⟩
      (Or.inr ⟨rfl, by decide⟩) rfl rfl (Or.inl rfl) rfl rfl,
   psize_count_only_drop "buf" "a->" (.Const .UInt8) (some [])
      ⟨false, false, false, false, .empty, .name "len"⟩
      (Or.inl rfl) rfl rfl (Or.inr rfl) rfl rfl⟩

end Oeedger8r
